import Mathlib

/-!
Shallow embedding of the `thread_pool` package of the go-core repository
(`dynamic_thread_pool.go`, `static_thread_pool.go`, `task.go`).

Tasks are identified by natural-number ids: the pools are polymorphic over the
task payload and `Execute()` is opaque to the pool, so an execution event is
recorded by the id of the task executed.  Go channels are modelled explicitly:
a buffered channel is its list of buffered items plus a closed flag; a send is
enabled only while the buffer has room, a send on a closed channel is a
runtime fault, and a receive on a closed drained channel yields the not-ok
value.  The two counting semaphores of the dynamic pool (`prioritySem` and
`normalSem`, buffered channels of unit values, lines 24-25) are modelled by
the number of slots currently held, bounded by their capacity.

Concurrency is modelled by a small-step relation `DStep` on pool states: each
step is one atomic channel or flag operation of one goroutine, and every
interleaving of enabled steps is a behaviour of the pool.  Where the Go code
performs two consecutive operations with no intervening channel wait (for
example the `isStopped` load followed by the buffered send in `Schedule`),
the pair is modelled as one step.
-/

namespace GoCore

/-- State of a `DynamicThreadPool` (dynamic_thread_pool.go, lines 14-30),
together with the goroutines spawned from it and the event history needed to
state the verified properties.  `pWaiting`/`nWaiting` hold the ids of live
workers blocked in the `select` of `priorityWorkerTask`/`normalWorkerTask`;
`pExec`/`nExec` hold `(workerId, taskId)` for workers currently inside
`task.Execute()`.  `pPending`/`nPending` count `Schedule` calls that have
completed their send and still have to run `tryLaunchPriorityWorker` /
`tryLaunchNormalWorker`.  `accepted` lists task ids whose `Schedule` send
succeeded (the call returns `true`); `executed` lists task ids in order of
completed execution; `execBy` records which worker executed which task.
`nextTid`/`nextWid` are freshness counters for task and worker ids. -/
structure DPState where
  maxPriorityWorkers : Nat
  maxNormalWorkers : Nat
  priorityCh : List Nat
  normalCh : List Nat
  priorityChClosed : Bool
  normalChClosed : Bool
  closeChClosed : Bool
  prioritySem : Nat
  normalSem : Nat
  prioritySemClosed : Bool
  normalSemClosed : Bool
  workerCount : Nat
  isStopped : Bool
  stopStarted : Bool
  stopDone : Bool
  pWaiting : Multiset Nat
  pExec : Multiset (Nat × Nat)
  nWaiting : Multiset Nat
  nExec : Multiset (Nat × Nat)
  pPending : Nat
  nPending : Nat
  accepted : List Nat
  executed : List Nat
  execBy : List (Nat × Nat)
  nextTid : Nat
  nextWid : Nat
deriving DecidableEq

/-- The freshly constructed pool state (the struct literal of
`NewDynamicThreadPool`, lines 48-57): empty channels, no workers, all flags
false, both semaphores empty. -/
def DPState.mkInit (maxP maxN : Nat) : DPState where
  maxPriorityWorkers := maxP
  maxNormalWorkers := maxN
  priorityCh := []
  normalCh := []
  priorityChClosed := false
  normalChClosed := false
  closeChClosed := false
  prioritySem := 0
  normalSem := 0
  prioritySemClosed := false
  normalSemClosed := false
  workerCount := 0
  isStopped := false
  stopStarted := false
  stopDone := false
  pWaiting := 0
  pExec := 0
  nWaiting := 0
  nExec := 0
  pPending := 0
  nPending := 0
  accepted := []
  executed := []
  execBy := []
  nextTid := 0
  nextWid := 0

/-- `NewDynamicThreadPool` (lines 35-58): returns `nil` if either ceiling is
zero, otherwise the fresh pool. -/
def NewDynamicThreadPool (maxPriorityWorkers maxNormalWorkers : Nat) :
    Option DPState :=
  if maxPriorityWorkers = 0 then none
  else if maxNormalWorkers = 0 then none
  else some (DPState.mkInit maxPriorityWorkers maxNormalWorkers)

/-- The `isStopped` fast path of `Schedule` (lines 69-72): the check happens
before the code branches on `urgent`, so the result is the same for both
classes.  `some false` means the call returns `false` at once with no other
effect; `none` means the check passed and the call proceeds to the `select`
(modelled by `ScheduleSend`). -/
def scheduleEntry (urgent : Bool) (s : DPState) : Option Bool :=
  if s.isStopped then some false else none

/-- The successful send of `Schedule` (lines 76-79 and 86-89): enabled when
the pool is not stopped (line 69 passed) and the destination buffered channel
has room (`priorityCh` has capacity `maxPriorityWorkers*2`, line 52;
`normalCh` has capacity `maxNormalWorkers*10`, line 53).  The new task id is
appended to the queue, recorded as accepted (the call will return `true`),
and one `tryLaunch` call becomes pending. -/
inductive ScheduleSend : DPState → DPState → Prop where
  | prio (s : DPState)
      (h1 : s.isStopped = false)
      (h2 : s.priorityChClosed = false)
      (h3 : s.priorityCh.length < s.maxPriorityWorkers * 2) :
      ScheduleSend s { s with
        priorityCh := s.priorityCh ++ [s.nextTid]
        accepted := s.accepted ++ [s.nextTid]
        pPending := s.pPending + 1
        nextTid := s.nextTid + 1 }
  | norm (s : DPState)
      (h1 : s.isStopped = false)
      (h2 : s.normalChClosed = false)
      (h3 : s.normalCh.length < s.maxNormalWorkers * 10) :
      ScheduleSend s { s with
        normalCh := s.normalCh ++ [s.nextTid]
        accepted := s.accepted ++ [s.nextTid]
        nPending := s.nPending + 1
        nextTid := s.nextTid + 1 }

/-- `tryLaunchPriorityWorker` (lines 98-109).  `stopped`: the `isStopped`
check at line 99 fires and the call returns with no other effect.  `go`: the
check passed and the semaphore send `t.prioritySem <- struct{}{}` (line 104)
proceeds, which requires a free slot (the semaphore channel has capacity
`maxPriorityWorkers`, line 55); the worker count rises and a fresh priority
worker goroutine starts in its `select`.  When the semaphore is full neither
constructor applies: the call is blocked in the send.  The check and the send
are consecutive in the code and are modelled as one step. -/
inductive PLaunch : DPState → DPState → Prop where
  | stopped (s : DPState)
      (h1 : s.pPending ≠ 0)
      (h2 : s.isStopped = true) :
      PLaunch s { s with pPending := s.pPending - 1 }
  | go (s : DPState)
      (h1 : s.pPending ≠ 0)
      (h2 : s.isStopped = false)
      (h3 : s.prioritySem < s.maxPriorityWorkers) :
      PLaunch s { s with
        pPending := s.pPending - 1
        prioritySem := s.prioritySem + 1
        workerCount := s.workerCount + 1
        pWaiting := Multiset.cons s.nextWid s.pWaiting
        nextWid := s.nextWid + 1 }

/-- `tryLaunchNormalWorker` (lines 112-122), mirror of `PLaunch` for the
normal class (`normalSem` has capacity `maxNormalWorkers`, line 56). -/
inductive NLaunch : DPState → DPState → Prop where
  | stopped (s : DPState)
      (h1 : s.nPending ≠ 0)
      (h2 : s.isStopped = true) :
      NLaunch s { s with nPending := s.nPending - 1 }
  | go (s : DPState)
      (h1 : s.nPending ≠ 0)
      (h2 : s.isStopped = false)
      (h3 : s.normalSem < s.maxNormalWorkers) :
      NLaunch s { s with
        nPending := s.nPending - 1
        normalSem := s.normalSem + 1
        workerCount := s.workerCount + 1
        nWaiting := Multiset.cons s.nextWid s.nWaiting
        nextWid := s.nextWid + 1 }

/-- One step of a priority worker goroutine (`priorityWorkerTask`, lines
125-148).  The `select` at line 135 chooses among its ready cases with Go's
uniform-random tie-break, so every ready case gives an enabled step:
`takeClose` (line 136, enabled once `closeCh` is closed), `chClosed` (line
140 with `ok = false`: `priorityCh` closed and drained) and `takeTask` (line
140 with a buffered task).  `takeClose`, `chClosed` and `finish` run the
deferred epilogue (lines 127-132): release one `prioritySem` slot and
decrement the worker count.  `takeTask` dequeues the head of `priorityCh` and
enters `task.Execute()`; `finish` is the completion of that call followed by
the epilogue.  A worker only ever reads `priorityCh` and `closeCh`. -/
inductive PWorkerStep : DPState → DPState → Prop where
  | takeClose (s : DPState) (wid : Nat)
      (h1 : wid ∈ s.pWaiting)
      (h2 : s.closeChClosed = true) :
      PWorkerStep s { s with
        pWaiting := s.pWaiting.erase wid
        prioritySem := s.prioritySem - 1
        workerCount := s.workerCount - 1 }
  | chClosed (s : DPState) (wid : Nat)
      (h1 : wid ∈ s.pWaiting)
      (h2 : s.priorityChClosed = true)
      (h3 : s.priorityCh = []) :
      PWorkerStep s { s with
        pWaiting := s.pWaiting.erase wid
        prioritySem := s.prioritySem - 1
        workerCount := s.workerCount - 1 }
  | takeTask (s : DPState) (wid tid : Nat) (rest : List Nat)
      (h1 : wid ∈ s.pWaiting)
      (h2 : s.priorityCh = tid :: rest) :
      PWorkerStep s { s with
        pWaiting := s.pWaiting.erase wid
        pExec := Multiset.cons (wid, tid) s.pExec
        priorityCh := rest }
  | finish (s : DPState) (wid tid : Nat)
      (h1 : (wid, tid) ∈ s.pExec) :
      PWorkerStep s { s with
        pExec := s.pExec.erase (wid, tid)
        executed := s.executed ++ [tid]
        execBy := s.execBy ++ [(wid, tid)]
        prioritySem := s.prioritySem - 1
        workerCount := s.workerCount - 1 }

/-- One step of a normal worker goroutine (`normalWorkerTask`, lines 151-173),
mirror of `PWorkerStep` on `normalCh`/`normalSem`. -/
inductive NWorkerStep : DPState → DPState → Prop where
  | takeClose (s : DPState) (wid : Nat)
      (h1 : wid ∈ s.nWaiting)
      (h2 : s.closeChClosed = true) :
      NWorkerStep s { s with
        nWaiting := s.nWaiting.erase wid
        normalSem := s.normalSem - 1
        workerCount := s.workerCount - 1 }
  | chClosed (s : DPState) (wid : Nat)
      (h1 : wid ∈ s.nWaiting)
      (h2 : s.normalChClosed = true)
      (h3 : s.normalCh = []) :
      NWorkerStep s { s with
        nWaiting := s.nWaiting.erase wid
        normalSem := s.normalSem - 1
        workerCount := s.workerCount - 1 }
  | takeTask (s : DPState) (wid tid : Nat) (rest : List Nat)
      (h1 : wid ∈ s.nWaiting)
      (h2 : s.normalCh = tid :: rest) :
      NWorkerStep s { s with
        nWaiting := s.nWaiting.erase wid
        nExec := Multiset.cons (wid, tid) s.nExec
        normalCh := rest }
  | finish (s : DPState) (wid tid : Nat)
      (h1 : (wid, tid) ∈ s.nExec) :
      NWorkerStep s { s with
        nExec := s.nExec.erase (wid, tid)
        executed := s.executed ++ [tid]
        execBy := s.execBy ++ [(wid, tid)]
        normalSem := s.normalSem - 1
        workerCount := s.workerCount - 1 }

/-- `Stop` (lines 176-199).  `first`: the `sync.Once` admits the first caller,
which marks the pool stopped (line 179) and closes `closeCh` (line 182).
`finishStop`: `t.wg.Wait()` (line 185) returns once no worker goroutine is
live, after which the task channels and the semaphore channels are closed
(lines 190-195) and the call returns.  A call finding `stopStarted` already
set runs no body (`sync.Once`), so it contributes no step. -/
inductive StopStep : DPState → DPState → Prop where
  | first (s : DPState)
      (h : s.stopStarted = false) :
      StopStep s { s with
        stopStarted := true
        isStopped := true
        closeChClosed := true }
  | finishStop (s : DPState)
      (h1 : s.stopStarted = true)
      (h2 : s.stopDone = false)
      (h3 : s.pWaiting = 0) (h4 : s.pExec = 0)
      (h5 : s.nWaiting = 0) (h6 : s.nExec = 0) :
      StopStep s { s with
        stopDone := true
        priorityChClosed := true
        normalChClosed := true
        prioritySemClosed := true
        normalSemClosed := true }

/-- One atomic step of any goroutine interacting with a dynamic pool. -/
inductive DStep : DPState → DPState → Prop where
  | sched {s s' : DPState} (h : ScheduleSend s s') : DStep s s'
  | launchP {s s' : DPState} (h : PLaunch s s') : DStep s s'
  | launchN {s s' : DPState} (h : NLaunch s s') : DStep s s'
  | pworker {s s' : DPState} (h : PWorkerStep s s') : DStep s s'
  | nworker {s s' : DPState} (h : NWorkerStep s s') : DStep s s'
  | stop {s s' : DPState} (h : StopStep s s') : DStep s s'

/-- Reflexive-transitive closure of `DStep`: the states a dynamic pool can
reach from a given state under some interleaving. -/
inductive DReach : DPState → DPState → Prop where
  | refl (s : DPState) : DReach s s
  | tail {s t u : DPState} (h1 : DReach s t) (h2 : DStep t u) : DReach s u

/-- Stop of the dynamic pool (lines 176-199) as a whole-call function on a
quiescent pool (no live worker goroutines, so `t.wg.Wait()` at line 185
returns at once and the body runs to completion in one piece).  The
`sync.Once` guard `stopOnce` (line 177) makes every call after the first
return without running the body. -/
def DPState.stopOnce (s : DPState) : DPState :=
  if s.stopStarted then s
  else { s with
    stopStarted := true
    isStopped := true
    closeChClosed := true
    stopDone := true
    priorityChClosed := true
    normalChClosed := true
    prioritySemClosed := true
    normalSemClosed := true }

/-- Concrete run of a (1,1) dynamic pool used to instantiate the theorems
below: `dp0` fresh pool; `dp1` after a `Schedule(true, task 0)` send
succeeded; `dp2` after its `tryLaunchPriorityWorker` spawned worker 0;
`dp3` after `Stop()` marked the pool stopped and closed `closeCh`. -/
def dp0 : DPState := DPState.mkInit 1 1

def dp1 : DPState :=
  { dp0 with priorityCh := [0], accepted := [0], pPending := 1, nextTid := 1 }

def dp2 : DPState :=
  { dp1 with pPending := 0, prioritySem := 1, workerCount := 1,
             pWaiting := {0}, nextWid := 1 }

def dp3 : DPState :=
  { dp2 with stopStarted := true, isStopped := true, closeChClosed := true }

/-- Continuation of the run in which worker 0's select takes the shutdown
signal (`dp4`) and `Stop()` then completes (`dp5`): task 0 stays buffered,
accepted but never executed. -/
def dp4 : DPState :=
  { dp3 with pWaiting := 0, prioritySem := 0, workerCount := 0 }

def dp5 : DPState :=
  { dp4 with stopDone := true, priorityChClosed := true, normalChClosed := true,
             prioritySemClosed := true, normalSemClosed := true }

/-- Alternative continuation from `dp3` in which worker 0's select takes the
buffered task instead (`dq4`) and executes it (`dq5`), although the shutdown
signal was already ready at `dp3`. -/
def dq4 : DPState :=
  { dp3 with pWaiting := 0, pExec := {(0, 0)}, priorityCh := [] }

def dq5 : DPState :=
  { dq4 with pExec := 0, executed := [0], execBy := [(0, 0)],
             prioritySem := 0, workerCount := 0 }

/-- A stopped dynamic pool with one `tryLaunchPriorityWorker` call pending,
and the state after that call returns on its `isStopped` check. -/
def dp3p : DPState := { dp3 with pPending := 1 }

def dp3q : DPState := { dp3p with pPending := 0 }

/-- A pool state in which both worker classes have a waiting worker while the
shutdown signal is ready and both queues hold a task. -/
def dboth : DPState :=
  { DPState.mkInit 1 1 with
      closeChClosed := true, pWaiting := {0}, nWaiting := {1},
      priorityCh := [5], normalCh := [6], prioritySem := 1, normalSem := 1,
      workerCount := 2, nextTid := 7, nextWid := 2 }

/-- State of a `StaticThreadPool` (static_thread_pool.go, lines 9-22) together
with the run history needed below.  `closeBuf` is the number of buffered
shutdown signals in the `close` channel (capacity `worker`); `modes` records
the mode flag each spawned `Do` loop was given; `executedS` the executed task
ids. -/
structure SPState where
  worker : Nat
  closeBuf : Nat
  closeClosed : Bool
  priorityCh : List Nat
  normalCh : List Nat
  priorityChClosed : Bool
  normalChClosed : Bool
  liveWorkers : Nat
  modes : List Bool
  executedS : List Nat
deriving DecidableEq

/-- `NewStaticThreadPool` (lines 25-37): nil when `count == 0`, else a pool
with no workers yet; `close` has capacity `count`, `priorityCh` capacity
`count*2`, `normalCh` capacity `count*5000`. -/
def NewStaticThreadPool (count : Nat) : Option SPState :=
  if count = 0 then none
  else some
    { worker := count
      closeBuf := 0
      closeClosed := false
      priorityCh := []
      normalCh := []
      priorityChClosed := false
      normalChClosed := false
      liveWorkers := 0
      modes := []
      executedS := [] }

/-- The `highPriority` count computed by `Start` (line 42):
`(t.worker * 10) / 100` in Go's `uint32` arithmetic — the product wraps
modulo `2^32` before the division. -/
def highPriorityCount (worker : Nat) : Nat :=
  worker * 10 % 2 ^ 32 / 100

/-- The mode flags computed by `Start` (lines 40-48): worker `i` runs
`Do(i < highPriority)` with `highPriority = (worker * 10) / 100` in `uint32`
arithmetic; `true` means urgent-only, `false` mixed. -/
def staticStart (count : Nat) : List Bool :=
  (List.range count).map (fun i => decide (i < highPriorityCount count))

/-- `Start` (lines 40-48): spawns `worker` loops with the computed modes. -/
def SPState.start (s : SPState) : SPState :=
  { s with liveWorkers := s.worker, modes := staticStart s.worker }

/-- Outcome of the unconditional channel send in the static pool's
`Schedule`. -/
inductive SendRes where
  | fault
  | blocked
  | sent (s : SPState)
deriving DecidableEq

/-- `Schedule` (lines 64-72): sends on the queue matching `urgent` with no
stopped-check.  In Go a send on a closed channel is a runtime fault
regardless of buffer occupancy; on an open full buffer the caller blocks. -/
def SPState.schedule (s : SPState) (urgent : Bool) (tid : Nat) : SendRes :=
  if urgent then
    if s.priorityChClosed then SendRes.fault
    else if s.priorityCh.length < s.worker * 2 then
      SendRes.sent { s with priorityCh := s.priorityCh ++ [tid] }
    else SendRes.blocked
  else
    if s.normalChClosed then SendRes.fault
    else if s.normalCh.length < s.worker * 5000 then
      SendRes.sent { s with normalCh := s.normalCh ++ [tid] }
    else SendRes.blocked

/-- `Stop` (lines 51-61) run to completion.  The loop performs `worker` sends
on the `close` channel (`worker ≥ 1` for every constructed pool, so at least
one send runs); the first send faults if the channel is already closed — as
it is after a completed `Stop`.  Otherwise the sends fit (capacity `worker`),
each live worker consumes one signal and exits, `wg.Wait` returns, and the
`close` channel and both task queues are closed; unconsumed signals stay
buffered. -/
def SPState.stop (s : SPState) : Except String SPState :=
  if s.closeClosed then Except.error "send on closed channel"
  else Except.ok { s with
    closeBuf := s.closeBuf + s.worker - s.liveWorkers
    liveWorkers := 0
    closeClosed := true
    priorityChClosed := true
    normalChClosed := true }

/-- One iteration of a worker loop `Do` (lines 75-101).  With `mode = true`
(urgent-only, lines 78-87) the select offers only `priorityCh` and `close`;
with `mode = false` (mixed, lines 88-99) it also offers `normalCh`.  A close
signal is either a buffered value (`closeSig`) or, once the channel is
closed, its zero value (`closeDone`); both return from `Do`, ending the
loop. -/
inductive SDoStep : Bool → SPState → SPState → Prop where
  | prio (mode : Bool) (s : SPState) (tid : Nat) (rest : List Nat)
      (h : s.priorityCh = tid :: rest) :
      SDoStep mode s
        { s with priorityCh := rest, executedS := s.executedS ++ [tid] }
  | norm (s : SPState) (tid : Nat) (rest : List Nat)
      (h : s.normalCh = tid :: rest) :
      SDoStep false s
        { s with normalCh := rest, executedS := s.executedS ++ [tid] }
  | closeSig (mode : Bool) (s : SPState)
      (h : 0 < s.closeBuf) :
      SDoStep mode s
        { s with closeBuf := s.closeBuf - 1,
                 liveWorkers := s.liveWorkers - 1 }
  | closeDone (mode : Bool) (s : SPState)
      (h : s.closeClosed = true) :
      SDoStep mode s { s with liveWorkers := s.liveWorkers - 1 }

/-- The static pool built by `NewStaticThreadPool 4`, and its state after a
completed `Stop()`. -/
def sp4 : SPState :=
  { worker := 4
    closeBuf := 0
    closeClosed := false
    priorityCh := []
    normalCh := []
    priorityChClosed := false
    normalChClosed := false
    liveWorkers := 0
    modes := []
    executedS := [] }

def sp4s : SPState :=
  { sp4 with closeBuf := 4, closeClosed := true, priorityChClosed := true,
             normalChClosed := true }

/-- Multiset of all task ids present in a static pool: queued in either
queue or already executed. -/
def stidMS (s : SPState) : Multiset Nat :=
  (↑s.priorityCh : Multiset Nat) + ↑s.normalCh + ↑s.executedS

/-- One atomic step of any goroutine interacting with a static pool: a
completed `Schedule` send (the enqueued task is a fresh object, distinct
from every task already in the pool), one worker-loop iteration, `Start`,
or a completed `Stop`. -/
inductive SStep : SPState → SPState → Prop where
  | sched (urgent : Bool) (tid : Nat) {s s' : SPState}
      (hfresh : tid ∉ stidMS s)
      (h : SPState.schedule s urgent tid = SendRes.sent s') :
      SStep s s'
  | work (m : Bool) {s s' : SPState} (h : SDoStep m s s') : SStep s s'
  | start {s : SPState} : SStep s (SPState.start s)
  | stop {s s' : SPState} (h : SPState.stop s = Except.ok s') : SStep s s'

/-- Reflexive-transitive closure of `SStep`: the states a static pool can
reach from a given state under some interleaving. -/
inductive SReach : SPState → SPState → Prop where
  | refl (s : SPState) : SReach s s
  | tail {s t u : SPState} (h1 : SReach s t) (h2 : SStep t u) : SReach s u

/-- A concrete run of the `NewStaticThreadPool 4` pool: task 3 is enqueued
urgent (`sp4a`), then a worker iteration executes it (`sp4b`). -/
def sp4a : SPState := { sp4 with priorityCh := [3] }

def sp4b : SPState := { sp4a with priorityCh := [], executedS := [3] }

/-- Multiset of all task ids present in a dynamic pool: buffered in either
queue, currently being executed, or already executed. -/
def tidMS (s : DPState) : Multiset Nat :=
  (↑s.priorityCh : Multiset Nat) + ↑s.normalCh
    + Multiset.map Prod.snd s.pExec + Multiset.map Prod.snd s.nExec
    + ↑s.executed

/-- Multiset of all worker ids of a dynamic pool: live workers (waiting in
their select or executing) together with the workers recorded in the
execution history. -/
def widMS (s : DPState) : Multiset Nat :=
  s.pWaiting + s.nWaiting
    + Multiset.map Prod.fst s.pExec + Multiset.map Prod.fst s.nExec
    + ↑(s.execBy.map Prod.fst)

/-- Inductive invariant of the dynamic pool, preserved by every `DStep`:
the live workers of a class are exactly the held slots of that class's
semaphore, which never exceeds its ceiling; the worker count is the total of
both semaphores; task ids and worker ids are pairwise distinct and below
their freshness counters; every task id in the pool was accepted by a
`Schedule` call; and the stop flags are ordered (`stopDone` implies
`stopStarted` implies `isStopped` and `closeChClosed`). -/
structure Inv (s : DPState) : Prop where
  pcount : Multiset.card s.pWaiting + Multiset.card s.pExec = s.prioritySem
  ncount : Multiset.card s.nWaiting + Multiset.card s.nExec = s.normalSem
  pbound : s.prioritySem ≤ s.maxPriorityWorkers
  nbound : s.normalSem ≤ s.maxNormalWorkers
  wcount : s.workerCount = s.prioritySem + s.normalSem
  tidsNodup : (tidMS s).Nodup
  tidsLt : ∀ t ∈ tidMS s, t < s.nextTid
  widsNodup : (widMS s).Nodup
  widsLt : ∀ w ∈ widMS s, w < s.nextWid
  accMem : ∀ t ∈ tidMS s, t ∈ s.accepted
  stopImp : s.stopStarted = true → s.isStopped = true
  closeImp : s.stopStarted = true → s.closeChClosed = true
  doneImp : s.stopDone = true → s.stopStarted = true

theorem inv_mkInit (p n : Nat) : Inv (DPState.mkInit p n) := by
  constructor <;> simp [tidMS, widMS, DPState.mkInit]

theorem ScheduleSend_inv {s s' : DPState} (h : ScheduleSend s s') (hi : Inv s) :
    Inv s' := by
  cases h with
  | prio h1 h2 h3 =>
      have hfresh : s.nextTid ∉ tidMS s := fun hmem =>
        lt_irrefl _ (hi.tidsLt _ hmem)
      have htid : tidMS { s with
          priorityCh := s.priorityCh ++ [s.nextTid]
          accepted := s.accepted ++ [s.nextTid]
          pPending := s.pPending + 1
          nextTid := s.nextTid + 1 } = {s.nextTid} + tidMS s := by
        simp [tidMS, ← Multiset.coe_add, ← Multiset.coe_singleton]
        abel
      refine ⟨hi.pcount, hi.ncount, hi.pbound, hi.nbound, hi.wcount, ?_, ?_,
        hi.widsNodup, hi.widsLt, ?_, hi.stopImp, hi.closeImp, hi.doneImp⟩
      · rw [htid, Multiset.nodup_add]
        exact ⟨Multiset.nodup_singleton _, hi.tidsNodup,
          Multiset.singleton_disjoint.mpr hfresh⟩
      · intro t ht
        rw [htid, Multiset.mem_add] at ht
        show t < s.nextTid + 1
        rcases ht with ht | ht
        · rw [Multiset.mem_singleton] at ht
          omega
        · have := hi.tidsLt t ht
          omega
      · intro t ht
        rw [htid, Multiset.mem_add] at ht
        show t ∈ s.accepted ++ [s.nextTid]
        rcases ht with ht | ht
        · rw [Multiset.mem_singleton] at ht
          subst ht
          simp
        · exact List.mem_append_left _ (hi.accMem t ht)
  | norm h1 h2 h3 =>
      have hfresh : s.nextTid ∉ tidMS s := fun hmem =>
        lt_irrefl _ (hi.tidsLt _ hmem)
      have htid : tidMS { s with
          normalCh := s.normalCh ++ [s.nextTid]
          accepted := s.accepted ++ [s.nextTid]
          nPending := s.nPending + 1
          nextTid := s.nextTid + 1 } = {s.nextTid} + tidMS s := by
        simp [tidMS, ← Multiset.coe_add, ← Multiset.coe_singleton]
        abel
      refine ⟨hi.pcount, hi.ncount, hi.pbound, hi.nbound, hi.wcount, ?_, ?_,
        hi.widsNodup, hi.widsLt, ?_, hi.stopImp, hi.closeImp, hi.doneImp⟩
      · rw [htid, Multiset.nodup_add]
        exact ⟨Multiset.nodup_singleton _, hi.tidsNodup,
          Multiset.singleton_disjoint.mpr hfresh⟩
      · intro t ht
        rw [htid, Multiset.mem_add] at ht
        show t < s.nextTid + 1
        rcases ht with ht | ht
        · rw [Multiset.mem_singleton] at ht
          omega
        · have := hi.tidsLt t ht
          omega
      · intro t ht
        rw [htid, Multiset.mem_add] at ht
        show t ∈ s.accepted ++ [s.nextTid]
        rcases ht with ht | ht
        · rw [Multiset.mem_singleton] at ht
          subst ht
          simp
        · exact List.mem_append_left _ (hi.accMem t ht)

theorem inv_pExit {s : DPState} (wid : Nat) (h1 : wid ∈ s.pWaiting)
    (hi : Inv s) :
    Inv { s with
      pWaiting := s.pWaiting.erase wid
      prioritySem := s.prioritySem - 1
      workerCount := s.workerCount - 1 } := by
  obtain ⟨e, he⟩ : ∃ e, s.pWaiting = Multiset.cons wid e :=
    ⟨_, (Multiset.cons_erase h1).symm⟩
  have herase : s.pWaiting.erase wid = e := by
    rw [he, Multiset.erase_cons_head]
  have hsem : 0 < s.prioritySem := by
    have hp := hi.pcount
    have hc : 0 < Multiset.card s.pWaiting :=
      Multiset.card_pos_iff_exists_mem.mpr ⟨wid, h1⟩
    omega
  have hwid : widMS s = {wid} + widMS { s with
      pWaiting := s.pWaiting.erase wid
      prioritySem := s.prioritySem - 1
      workerCount := s.workerCount - 1 } := by
    simp only [widMS, herase, he, Multiset.singleton_add, Multiset.cons_add,
      Multiset.erase_cons_head]
  have hp := hi.pcount
  rw [he, Multiset.card_cons] at hp
  refine ⟨?_, hi.ncount, ?_, hi.nbound, ?_, hi.tidsNodup, hi.tidsLt, ?_, ?_,
    hi.accMem, hi.stopImp, hi.closeImp, hi.doneImp⟩
  · show Multiset.card (s.pWaiting.erase wid) + Multiset.card s.pExec
      = s.prioritySem - 1
    rw [herase]
    omega
  · show s.prioritySem - 1 ≤ s.maxPriorityWorkers
    have := hi.pbound
    omega
  · show s.workerCount - 1 = s.prioritySem - 1 + s.normalSem
    have := hi.wcount
    omega
  · have := hi.widsNodup
    rw [hwid, Multiset.singleton_add, Multiset.nodup_cons] at this
    exact this.2
  · intro w hw
    refine hi.widsLt w ?_
    rw [hwid, Multiset.mem_add]
    exact Or.inr hw

theorem inv_nExit {s : DPState} (wid : Nat) (h1 : wid ∈ s.nWaiting)
    (hi : Inv s) :
    Inv { s with
      nWaiting := s.nWaiting.erase wid
      normalSem := s.normalSem - 1
      workerCount := s.workerCount - 1 } := by
  obtain ⟨e, he⟩ : ∃ e, s.nWaiting = Multiset.cons wid e :=
    ⟨_, (Multiset.cons_erase h1).symm⟩
  have herase : s.nWaiting.erase wid = e := by
    rw [he, Multiset.erase_cons_head]
  have hsem : 0 < s.normalSem := by
    have hp := hi.ncount
    have hc : 0 < Multiset.card s.nWaiting :=
      Multiset.card_pos_iff_exists_mem.mpr ⟨wid, h1⟩
    omega
  have hwid : widMS s = {wid} + widMS { s with
      nWaiting := s.nWaiting.erase wid
      normalSem := s.normalSem - 1
      workerCount := s.workerCount - 1 } := by
    simp only [widMS, herase, he, Multiset.singleton_add, Multiset.cons_add,
      Multiset.add_cons, Multiset.erase_cons_head]
  have hp := hi.ncount
  rw [he, Multiset.card_cons] at hp
  refine ⟨hi.pcount, ?_, hi.pbound, ?_, ?_, hi.tidsNodup, hi.tidsLt, ?_, ?_,
    hi.accMem, hi.stopImp, hi.closeImp, hi.doneImp⟩
  · show Multiset.card (s.nWaiting.erase wid) + Multiset.card s.nExec
      = s.normalSem - 1
    rw [herase]
    omega
  · show s.normalSem - 1 ≤ s.maxNormalWorkers
    have := hi.nbound
    omega
  · show s.workerCount - 1 = s.prioritySem + (s.normalSem - 1)
    have := hi.wcount
    omega
  · have := hi.widsNodup
    rw [hwid, Multiset.singleton_add, Multiset.nodup_cons] at this
    exact this.2
  · intro w hw
    refine hi.widsLt w ?_
    rw [hwid, Multiset.mem_add]
    exact Or.inr hw

theorem PWorkerStep_inv {s s' : DPState} (h : PWorkerStep s s') (hi : Inv s) :
    Inv s' := by
  cases h with
  | takeClose wid h1 h2 => exact inv_pExit wid h1 hi
  | chClosed wid h1 h2 h3 => exact inv_pExit wid h1 hi
  | takeTask wid tid rest h1 h2 =>
      obtain ⟨e, he⟩ : ∃ e, s.pWaiting = Multiset.cons wid e :=
        ⟨_, (Multiset.cons_erase h1).symm⟩
      have herase : s.pWaiting.erase wid = e := by
        rw [he, Multiset.erase_cons_head]
      rw [herase]
      have htid : tidMS { s with
          pWaiting := e
          pExec := Multiset.cons (wid, tid) s.pExec
          priorityCh := rest } = tidMS s := by
        simp only [tidMS, h2, Multiset.map_cons, Multiset.map_add,
          Multiset.map_singleton, ← Multiset.cons_coe,
          ← Multiset.singleton_add]
        abel
      have hwid : widMS { s with
          pWaiting := e
          pExec := Multiset.cons (wid, tid) s.pExec
          priorityCh := rest } = widMS s := by
        simp only [widMS, he, Multiset.map_cons, Multiset.map_add,
          Multiset.map_singleton, ← Multiset.singleton_add]
        abel
      have hp := hi.pcount
      rw [he, Multiset.card_cons] at hp
      refine ⟨?_, hi.ncount, hi.pbound, hi.nbound, hi.wcount, ?_, ?_, ?_, ?_,
        ?_, hi.stopImp, hi.closeImp, hi.doneImp⟩
      · show Multiset.card e
          + Multiset.card (Multiset.cons (wid, tid) s.pExec) = s.prioritySem
        rw [Multiset.card_cons]
        omega
      · rw [htid]
        exact hi.tidsNodup
      · intro t ht
        rw [htid] at ht
        exact hi.tidsLt t ht
      · rw [hwid]
        exact hi.widsNodup
      · intro w hw
        rw [hwid] at hw
        exact hi.widsLt w hw
      · intro t ht
        rw [htid] at ht
        exact hi.accMem t ht
  | finish wid tid h1 =>
      obtain ⟨pe, hpe⟩ : ∃ pe, s.pExec = Multiset.cons (wid, tid) pe :=
        ⟨_, (Multiset.cons_erase h1).symm⟩
      have herase : s.pExec.erase (wid, tid) = pe := by
        rw [hpe, Multiset.erase_cons_head]
      rw [herase]
      have hsem : 0 < s.prioritySem := by
        have hp := hi.pcount
        have hc : 0 < Multiset.card s.pExec :=
          Multiset.card_pos_iff_exists_mem.mpr ⟨_, h1⟩
        omega
      have htid : tidMS { s with
          pExec := pe
          executed := s.executed ++ [tid]
          execBy := s.execBy ++ [(wid, tid)]
          prioritySem := s.prioritySem - 1
          workerCount := s.workerCount - 1 } = tidMS s := by
        simp only [tidMS, hpe, Multiset.map_cons, Multiset.map_add,
          Multiset.map_singleton, ← Multiset.coe_add, Multiset.coe_singleton,
          ← Multiset.singleton_add]
        abel
      have hwid : widMS { s with
          pExec := pe
          executed := s.executed ++ [tid]
          execBy := s.execBy ++ [(wid, tid)]
          prioritySem := s.prioritySem - 1
          workerCount := s.workerCount - 1 } = widMS s := by
        simp only [widMS, hpe, Multiset.map_cons, Multiset.map_add,
          Multiset.map_singleton, List.map_append, List.map_cons, List.map_nil,
          ← Multiset.coe_add, Multiset.coe_singleton,
          ← Multiset.singleton_add]
        abel
      have hp := hi.pcount
      rw [hpe, Multiset.card_cons] at hp
      refine ⟨?_, hi.ncount, ?_, hi.nbound, ?_, ?_, ?_, ?_, ?_, ?_,
        hi.stopImp, hi.closeImp, hi.doneImp⟩
      · show Multiset.card s.pWaiting + Multiset.card pe = s.prioritySem - 1
        omega
      · show s.prioritySem - 1 ≤ s.maxPriorityWorkers
        have := hi.pbound
        omega
      · show s.workerCount - 1 = s.prioritySem - 1 + s.normalSem
        have := hi.wcount
        omega
      · rw [htid]
        exact hi.tidsNodup
      · intro t ht
        rw [htid] at ht
        exact hi.tidsLt t ht
      · rw [hwid]
        exact hi.widsNodup
      · intro w hw
        rw [hwid] at hw
        exact hi.widsLt w hw
      · intro t ht
        rw [htid] at ht
        exact hi.accMem t ht

theorem NWorkerStep_inv {s s' : DPState} (h : NWorkerStep s s') (hi : Inv s) :
    Inv s' := by
  cases h with
  | takeClose wid h1 h2 => exact inv_nExit wid h1 hi
  | chClosed wid h1 h2 h3 => exact inv_nExit wid h1 hi
  | takeTask wid tid rest h1 h2 =>
      obtain ⟨e, he⟩ : ∃ e, s.nWaiting = Multiset.cons wid e :=
        ⟨_, (Multiset.cons_erase h1).symm⟩
      have herase : s.nWaiting.erase wid = e := by
        rw [he, Multiset.erase_cons_head]
      rw [herase]
      have htid : tidMS { s with
          nWaiting := e
          nExec := Multiset.cons (wid, tid) s.nExec
          normalCh := rest } = tidMS s := by
        simp only [tidMS, h2, Multiset.map_cons, Multiset.map_add,
          Multiset.map_singleton, ← Multiset.cons_coe,
          ← Multiset.singleton_add]
        abel
      have hwid : widMS { s with
          nWaiting := e
          nExec := Multiset.cons (wid, tid) s.nExec
          normalCh := rest } = widMS s := by
        simp only [widMS, he, Multiset.map_cons, Multiset.map_add,
          Multiset.map_singleton, ← Multiset.singleton_add]
        abel
      have hp := hi.ncount
      rw [he, Multiset.card_cons] at hp
      refine ⟨hi.pcount, ?_, hi.pbound, hi.nbound, hi.wcount, ?_, ?_, ?_, ?_,
        ?_, hi.stopImp, hi.closeImp, hi.doneImp⟩
      · show Multiset.card e
          + Multiset.card (Multiset.cons (wid, tid) s.nExec) = s.normalSem
        rw [Multiset.card_cons]
        omega
      · rw [htid]
        exact hi.tidsNodup
      · intro t ht
        rw [htid] at ht
        exact hi.tidsLt t ht
      · rw [hwid]
        exact hi.widsNodup
      · intro w hw
        rw [hwid] at hw
        exact hi.widsLt w hw
      · intro t ht
        rw [htid] at ht
        exact hi.accMem t ht
  | finish wid tid h1 =>
      obtain ⟨pe, hpe⟩ : ∃ pe, s.nExec = Multiset.cons (wid, tid) pe :=
        ⟨_, (Multiset.cons_erase h1).symm⟩
      have herase : s.nExec.erase (wid, tid) = pe := by
        rw [hpe, Multiset.erase_cons_head]
      rw [herase]
      have hsem : 0 < s.normalSem := by
        have hp := hi.ncount
        have hc : 0 < Multiset.card s.nExec :=
          Multiset.card_pos_iff_exists_mem.mpr ⟨_, h1⟩
        omega
      have htid : tidMS { s with
          nExec := pe
          executed := s.executed ++ [tid]
          execBy := s.execBy ++ [(wid, tid)]
          normalSem := s.normalSem - 1
          workerCount := s.workerCount - 1 } = tidMS s := by
        simp only [tidMS, hpe, Multiset.map_cons, Multiset.map_add,
          Multiset.map_singleton, ← Multiset.coe_add, Multiset.coe_singleton,
          ← Multiset.singleton_add]
        abel
      have hwid : widMS { s with
          nExec := pe
          executed := s.executed ++ [tid]
          execBy := s.execBy ++ [(wid, tid)]
          normalSem := s.normalSem - 1
          workerCount := s.workerCount - 1 } = widMS s := by
        simp only [widMS, hpe, Multiset.map_cons, Multiset.map_add,
          Multiset.map_singleton, List.map_append, List.map_cons, List.map_nil,
          ← Multiset.coe_add, Multiset.coe_singleton,
          ← Multiset.singleton_add]
        abel
      have hp := hi.ncount
      rw [hpe, Multiset.card_cons] at hp
      refine ⟨hi.pcount, ?_, hi.pbound, ?_, ?_, ?_, ?_, ?_, ?_, ?_,
        hi.stopImp, hi.closeImp, hi.doneImp⟩
      · show Multiset.card s.nWaiting + Multiset.card pe = s.normalSem - 1
        omega
      · show s.normalSem - 1 ≤ s.maxNormalWorkers
        have := hi.nbound
        omega
      · show s.workerCount - 1 = s.prioritySem + (s.normalSem - 1)
        have := hi.wcount
        omega
      · rw [htid]
        exact hi.tidsNodup
      · intro t ht
        rw [htid] at ht
        exact hi.tidsLt t ht
      · rw [hwid]
        exact hi.widsNodup
      · intro w hw
        rw [hwid] at hw
        exact hi.widsLt w hw
      · intro t ht
        rw [htid] at ht
        exact hi.accMem t ht

theorem PLaunch_inv {s s' : DPState} (h : PLaunch s s') (hi : Inv s) :
    Inv s' := by
  cases h with
  | stopped h1 h2 =>
      exact ⟨hi.pcount, hi.ncount, hi.pbound, hi.nbound, hi.wcount,
        hi.tidsNodup, hi.tidsLt, hi.widsNodup, hi.widsLt, hi.accMem,
        hi.stopImp, hi.closeImp, hi.doneImp⟩
  | go h1 h2 h3 =>
      have hfresh : s.nextWid ∉ widMS s := fun hm =>
        lt_irrefl _ (hi.widsLt _ hm)
      have hwid : widMS { s with
          pPending := s.pPending - 1
          prioritySem := s.prioritySem + 1
          workerCount := s.workerCount + 1
          pWaiting := Multiset.cons s.nextWid s.pWaiting
          nextWid := s.nextWid + 1 } = {s.nextWid} + widMS s := by
        simp only [widMS, ← Multiset.singleton_add]
        abel
      refine ⟨?_, hi.ncount, ?_, hi.nbound, ?_, hi.tidsNodup, hi.tidsLt,
        ?_, ?_, hi.accMem, hi.stopImp, hi.closeImp, hi.doneImp⟩
      · show Multiset.card (Multiset.cons s.nextWid s.pWaiting)
          + Multiset.card s.pExec = s.prioritySem + 1
        rw [Multiset.card_cons]
        have := hi.pcount
        omega
      · show s.prioritySem + 1 ≤ s.maxPriorityWorkers
        omega
      · show s.workerCount + 1 = s.prioritySem + 1 + s.normalSem
        have := hi.wcount
        omega
      · rw [hwid, Multiset.singleton_add, Multiset.nodup_cons]
        exact ⟨hfresh, hi.widsNodup⟩
      · intro w hw
        rw [hwid, Multiset.mem_add] at hw
        show w < s.nextWid + 1
        rcases hw with hw | hw
        · rw [Multiset.mem_singleton] at hw
          omega
        · have := hi.widsLt w hw
          omega

theorem NLaunch_inv {s s' : DPState} (h : NLaunch s s') (hi : Inv s) :
    Inv s' := by
  cases h with
  | stopped h1 h2 =>
      exact ⟨hi.pcount, hi.ncount, hi.pbound, hi.nbound, hi.wcount,
        hi.tidsNodup, hi.tidsLt, hi.widsNodup, hi.widsLt, hi.accMem,
        hi.stopImp, hi.closeImp, hi.doneImp⟩
  | go h1 h2 h3 =>
      have hfresh : s.nextWid ∉ widMS s := fun hm =>
        lt_irrefl _ (hi.widsLt _ hm)
      have hwid : widMS { s with
          nPending := s.nPending - 1
          normalSem := s.normalSem + 1
          workerCount := s.workerCount + 1
          nWaiting := Multiset.cons s.nextWid s.nWaiting
          nextWid := s.nextWid + 1 } = {s.nextWid} + widMS s := by
        simp only [widMS, ← Multiset.singleton_add]
        abel
      refine ⟨hi.pcount, ?_, hi.pbound, ?_, ?_, hi.tidsNodup, hi.tidsLt,
        ?_, ?_, hi.accMem, hi.stopImp, hi.closeImp, hi.doneImp⟩
      · show Multiset.card (Multiset.cons s.nextWid s.nWaiting)
          + Multiset.card s.nExec = s.normalSem + 1
        rw [Multiset.card_cons]
        have := hi.ncount
        omega
      · show s.normalSem + 1 ≤ s.maxNormalWorkers
        omega
      · show s.workerCount + 1 = s.prioritySem + (s.normalSem + 1)
        have := hi.wcount
        omega
      · rw [hwid, Multiset.singleton_add, Multiset.nodup_cons]
        exact ⟨hfresh, hi.widsNodup⟩
      · intro w hw
        rw [hwid, Multiset.mem_add] at hw
        show w < s.nextWid + 1
        rcases hw with hw | hw
        · rw [Multiset.mem_singleton] at hw
          omega
        · have := hi.widsLt w hw
          omega

theorem StopStep_inv {s s' : DPState} (h : StopStep s s') (hi : Inv s) :
    Inv s' := by
  cases h with
  | first h =>
      exact ⟨hi.pcount, hi.ncount, hi.pbound, hi.nbound, hi.wcount,
        hi.tidsNodup, hi.tidsLt, hi.widsNodup, hi.widsLt, hi.accMem,
        fun _ => rfl, fun _ => rfl, fun _ => rfl⟩
  | finishStop h1 h2 h3 h4 h5 h6 =>
      exact ⟨hi.pcount, hi.ncount, hi.pbound, hi.nbound, hi.wcount,
        hi.tidsNodup, hi.tidsLt, hi.widsNodup, hi.widsLt, hi.accMem,
        fun hs => hi.stopImp hs, fun hs => hi.closeImp hs, fun _ => h1⟩

theorem DStep_inv {s s' : DPState} (h : DStep s s') (hi : Inv s) : Inv s' := by
  cases h with
  | sched h => exact ScheduleSend_inv h hi
  | launchP h => exact PLaunch_inv h hi
  | launchN h => exact NLaunch_inv h hi
  | pworker h => exact PWorkerStep_inv h hi
  | nworker h => exact NWorkerStep_inv h hi
  | stop h => exact StopStep_inv h hi

theorem DReach_inv {s s' : DPState} (h : DReach s s') (hi : Inv s) : Inv s' := by
  induction h with
  | refl => exact hi
  | tail _ h2 ih => exact DStep_inv h2 ih

/-- The configured ceilings are never written after construction. -/
theorem DStep_config {s s' : DPState} (h : DStep s s') :
    s'.maxPriorityWorkers = s.maxPriorityWorkers
      ∧ s'.maxNormalWorkers = s.maxNormalWorkers := by
  rcases h with h | h | h | h | h | h <;> cases h <;> exact ⟨rfl, rfl⟩

theorem DReach_config {s s' : DPState} (h : DReach s s') :
    s'.maxPriorityWorkers = s.maxPriorityWorkers
      ∧ s'.maxNormalWorkers = s.maxNormalWorkers := by
  induction h with
  | refl => exact ⟨rfl, rfl⟩
  | tail _ h2 ih =>
      obtain ⟨a, b⟩ := DStep_config h2
      exact ⟨a.trans ih.1, b.trans ih.2⟩

/-- Once `isStopped` is set no step resets it, accepts a task, or allocates a
new task id: `ScheduleSend` is disabled (its `isStopped` guard fails), and no
other step touches `accepted` or `nextTid`. -/
theorem DStep_stopped_frozen {s s' : DPState} (h : DStep s s')
    (hs : s.isStopped = true) :
    s'.isStopped = true ∧ s'.accepted = s.accepted
      ∧ s'.nextTid = s.nextTid := by
  rcases h with h | h | h | h | h | h <;> cases h <;> simp_all

theorem DReach_stopped_frozen {s s' : DPState} (h : DReach s s')
    (hs : s.isStopped = true) :
    s'.isStopped = true ∧ s'.accepted = s.accepted
      ∧ s'.nextTid = s.nextTid := by
  induction h with
  | refl => exact ⟨hs, rfl, rfl⟩
  | tail _ h2 ih =>
      obtain ⟨hI, hA, hT⟩ := ih
      obtain ⟨hI', hA', hT'⟩ := DStep_stopped_frozen h2 hI
      exact ⟨hI', hA'.trans hA, hT'.trans hT⟩

theorem dstep01 : DStep dp0 dp1 :=
  DStep.sched (ScheduleSend.prio dp0 rfl rfl (by decide))

theorem dstep12 : DStep dp1 dp2 :=
  DStep.launchP (PLaunch.go dp1 (by decide) rfl (by decide))

theorem dstep23 : DStep dp2 dp3 :=
  DStep.stop (StopStep.first dp2 rfl)

theorem dstep34 : DStep dp3 dp4 :=
  DStep.pworker (PWorkerStep.takeClose dp3 0 (by decide) rfl)

theorem dstep45 : DStep dp4 dp5 :=
  DStep.stop (StopStep.finishStop dp4 rfl rfl rfl rfl rfl rfl)

theorem dstep3q4 : DStep dp3 dq4 :=
  DStep.pworker (PWorkerStep.takeTask dp3 0 0 [] (by decide) rfl)

theorem dstepq45 : DStep dq4 dq5 :=
  DStep.pworker (PWorkerStep.finish dq4 0 0 (by decide))

theorem reach2 : DReach (DPState.mkInit 1 1) dp2 :=
  DReach.tail (DReach.tail (DReach.refl dp0) dstep01) dstep12

theorem reach3 : DReach (DPState.mkInit 1 1) dp3 :=
  DReach.tail reach2 dstep23

theorem reach5 : DReach (DPState.mkInit 1 1) dp5 :=
  DReach.tail (DReach.tail reach3 dstep34) dstep45

theorem reachq5 : DReach (DPState.mkInit 1 1) dq5 :=
  DReach.tail (DReach.tail reach3 dstep3q4) dstepq45

/-- C1: in every reachable state of a dynamic pool constructed with ceilings
`p` and `n`, at most `p` workers are concurrently executing urgent-class
tasks and at most `n` workers are concurrently executing normal-class tasks;
the live workers of each class are exactly the held slots of that class's
semaphore (every launch first acquires a slot, every worker releases exactly
one on termination) and the held slots never exceed the ceiling. -/
theorem C1_capacity_bound {p n : Nat} {s : DPState}
    (h : DReach (DPState.mkInit p n) s) :
    Multiset.card s.pExec ≤ p
      ∧ Multiset.card s.nExec ≤ n
      ∧ Multiset.card s.pWaiting + Multiset.card s.pExec = s.prioritySem
      ∧ Multiset.card s.nWaiting + Multiset.card s.nExec = s.normalSem
      ∧ s.prioritySem ≤ p ∧ s.normalSem ≤ n := by
  have hi := DReach_inv h (inv_mkInit p n)
  have hP : s.maxPriorityWorkers = p := (DReach_config h).1
  have hN : s.maxNormalWorkers = n := (DReach_config h).2
  have h1 := hi.pcount
  have h2 := hi.ncount
  have h3 := hi.pbound
  have h4 := hi.nbound
  rw [hP] at h3
  rw [hN] at h4
  exact ⟨by omega, by omega, h1, h2, h3, h4⟩

theorem C1_capacity_bound_witness :
    Multiset.card dp2.pExec ≤ 1
      ∧ Multiset.card dp2.nExec ≤ 1
      ∧ Multiset.card dp2.pWaiting + Multiset.card dp2.pExec = dp2.prioritySem
      ∧ Multiset.card dp2.nWaiting + Multiset.card dp2.nExec = dp2.normalSem
      ∧ dp2.prioritySem ≤ 1 ∧ dp2.normalSem ≤ 1 :=
  C1_capacity_bound reach2

/-- C2 counterexample: a faithful interleaving of a (1,1) dynamic pool in
which `Schedule(true, task 0)` succeeds (task 0 is accepted), the launched
worker's select takes the shutdown signal (both were ready, Go's select
chooses at random), and `Stop()` returns with task 0 still buffered and never
executed — refuting the claim that every task accepted by a successful
`Schedule` call is executed (exactly once) before `Stop()` returns. -/
theorem C2_cex :
    DReach (DPState.mkInit 1 1) dp5
      ∧ dp5.stopDone = true
      ∧ dp5.accepted = [0]
      ∧ dp5.executed = [] :=
  ⟨reach5, rfl, rfl, rfl⟩

theorem SStep_nodup {t t' : SPState} (h : SStep t t')
    (hnd : (stidMS t).Nodup) : (stidMS t').Nodup := by
  cases h with
  | sched urgent tid hfresh h =>
      unfold SPState.schedule at h
      cases urgent with
      | true =>
          rw [if_pos rfl] at h
          by_cases hcl : t.priorityChClosed = true
          · rw [if_pos hcl] at h
            exact SendRes.noConfusion h
          · rw [if_neg hcl] at h
            by_cases hlen : t.priorityCh.length < t.worker * 2
            · rw [if_pos hlen] at h
              simp only [SendRes.sent.injEq] at h
              subst h
              have hkey : stidMS { t with
                  priorityCh := t.priorityCh ++ [tid] } = {tid} + stidMS t := by
                simp only [stidMS, ← Multiset.coe_add, ← Multiset.coe_singleton]
                abel
              rw [hkey, Multiset.nodup_add]
              exact ⟨Multiset.nodup_singleton _, hnd,
                Multiset.singleton_disjoint.mpr hfresh⟩
            · rw [if_neg hlen] at h
              exact SendRes.noConfusion h
      | false =>
          rw [if_neg (by simp)] at h
          by_cases hcl : t.normalChClosed = true
          · rw [if_pos hcl] at h
            exact SendRes.noConfusion h
          · rw [if_neg hcl] at h
            by_cases hlen : t.normalCh.length < t.worker * 5000
            · rw [if_pos hlen] at h
              simp only [SendRes.sent.injEq] at h
              subst h
              have hkey : stidMS { t with
                  normalCh := t.normalCh ++ [tid] } = {tid} + stidMS t := by
                simp only [stidMS, ← Multiset.coe_add, ← Multiset.coe_singleton]
                abel
              rw [hkey, Multiset.nodup_add]
              exact ⟨Multiset.nodup_singleton _, hnd,
                Multiset.singleton_disjoint.mpr hfresh⟩
            · rw [if_neg hlen] at h
              exact SendRes.noConfusion h
  | work m h =>
      cases h with
      | prio mdum sdum tid rest hq =>
          have hkey : stidMS { t with
              priorityCh := rest
              executedS := t.executedS ++ [tid] } = stidMS t := by
            simp only [stidMS, hq, ← Multiset.cons_coe, ← Multiset.coe_add,
              Multiset.coe_singleton, ← Multiset.singleton_add]
            abel
          rw [hkey]
          exact hnd
      | norm sdum tid rest hq =>
          have hkey : stidMS { t with
              normalCh := rest
              executedS := t.executedS ++ [tid] } = stidMS t := by
            simp only [stidMS, hq, ← Multiset.cons_coe, ← Multiset.coe_add,
              Multiset.coe_singleton, ← Multiset.singleton_add]
            abel
          rw [hkey]
          exact hnd
      | closeSig mdum sdum hclose => exact hnd
      | closeDone mdum sdum hclose => exact hnd
  | start => exact hnd
  | stop h =>
      unfold SPState.stop at h
      split at h
      · exact Except.noConfusion h
      · simp only [Except.ok.injEq] at h
        subst h
        exact hnd

theorem SReach_nodup {t t' : SPState} (h : SReach t t')
    (hnd : (stidMS t).Nodup) : (stidMS t').Nodup := by
  induction h with
  | refl => exact hnd
  | tail _ h2 ih => exact SStep_nodup h2 ih

theorem NewStatic_nodup {c : Nat} {t0 : SPState}
    (h0 : NewStaticThreadPool c = some t0) : (stidMS t0).Nodup := by
  unfold NewStaticThreadPool at h0
  split at h0
  · exact Option.noConfusion h0
  · simp only [Option.some.injEq] at h0
    subst h0
    simp [stidMS]

theorem sstepA : SStep sp4 sp4a :=
  SStep.sched true 3 (by decide) rfl

theorem sstepB : SStep sp4a sp4b :=
  SStep.work true (SDoStep.prio true sp4a 3 [] rfl)

theorem sreachB : SReach sp4 sp4b :=
  SReach.tail (SReach.tail (SReach.refl sp4) sstepA) sstepB

/-- C2 (amended): for both pool variants, no accepted task is ever executed
twice.  Elastic: in every reachable state the execution history has no
repeated task id and only accepted tasks appear in it; an accepted task may
however remain unexecuted in its queue when `Stop()` returns, if the pool is
stopped before a worker dequeues it (see the counterexample trace).  Fixed:
along any run starting from a constructed pool in which callers enqueue
pairwise-distinct tasks, the execution history likewise has no repeated task
id. -/
theorem C2_amended {p n c : Nat} {s : DPState} {t0 t : SPState}
    (h : DReach (DPState.mkInit p n) s)
    (h0 : NewStaticThreadPool c = some t0) (hs : SReach t0 t) :
    (s.executed.Nodup ∧ ∀ x ∈ s.executed, x ∈ s.accepted)
      ∧ t.executedS.Nodup := by
  have hi := DReach_inv h (inv_mkInit p n)
  refine ⟨⟨?_, ?_⟩, ?_⟩
  · have hnd := hi.tidsNodup
    rw [tidMS] at hnd
    have h1 := (Multiset.nodup_add.mp hnd).2.1
    rw [Multiset.coe_nodup] at h1
    exact h1
  · intro x hx
    refine hi.accMem x ?_
    show x ∈ (↑s.priorityCh : Multiset Nat) + ↑s.normalCh
      + Multiset.map Prod.snd s.pExec + Multiset.map Prod.snd s.nExec
      + ↑s.executed
    exact Multiset.mem_add.mpr (Or.inr (Multiset.mem_coe.mpr hx))
  · have hnd := SReach_nodup hs (NewStatic_nodup h0)
    rw [stidMS] at hnd
    have h1 := (Multiset.nodup_add.mp hnd).2.1
    rw [Multiset.coe_nodup] at h1
    exact h1

theorem C2_amended_witness :
    dq5.executed.Nodup ∧ sp4b.executedS.Nodup :=
  ⟨(@C2_amended 1 1 4 dq5 sp4 sp4b reachq5 rfl sreachB).1.1,
   (@C2_amended 1 1 4 dq5 sp4 sp4b reachq5 rfl sreachB).2⟩

/-- C3: when a dynamic pool is stopped, every `Schedule` call of either
class returns `false` immediately on the `isStopped` check without
enqueueing; after `Stop()` has completed this holds in every subsequent
state, the set of accepted tasks never changes again, and no task submitted
after the stop (one with an id not yet allocated) is ever executed. -/
theorem C3_post_stop_rejection {p n : Nat} {s : DPState}
    (h : DReach (DPState.mkInit p n) s) (hd : s.stopDone = true) :
    (∀ u : Bool, scheduleEntry u s = some false)
      ∧ ∀ s', DReach s s' →
          s'.accepted = s.accepted
            ∧ (∀ u : Bool, scheduleEntry u s' = some false)
            ∧ ∀ t, s.nextTid ≤ t → t ∉ s'.executed := by
  have hi := DReach_inv h (inv_mkInit p n)
  have hstop : s.isStopped = true := hi.stopImp (hi.doneImp hd)
  constructor
  · intro u
    simp [scheduleEntry, hstop]
  · intro s' h'
    obtain ⟨hI, hA, hT⟩ := DReach_stopped_frozen h' hstop
    refine ⟨hA, fun u => by simp [scheduleEntry, hI], ?_⟩
    intro t hle hmem
    have hi' : Inv s' := DReach_inv h' hi
    have hmem' : t ∈ tidMS s' := by
      show t ∈ (↑s'.priorityCh : Multiset Nat) + ↑s'.normalCh
        + Multiset.map Prod.snd s'.pExec + Multiset.map Prod.snd s'.nExec
        + ↑s'.executed
      exact Multiset.mem_add.mpr (Or.inr (Multiset.mem_coe.mpr hmem))
    have hlt := hi'.tidsLt t hmem'
    omega

theorem C3_post_stop_rejection_witness :
    scheduleEntry true dp5 = some false
      ∧ scheduleEntry false dp5 = some false :=
  ⟨(C3_post_stop_rejection reach5 rfl).1 true,
   (C3_post_stop_rejection reach5 rfl).1 false⟩

/-- C6: every spawned worker of the dynamic pool executes at most one task
(no worker id ever appears twice in the execution history — a worker never
loops for a second task); a priority-worker step never touches the normal
queue or the normal semaphore and vice versa; and every step in which a
worker terminates (the live workers of its class drop by one) releases
exactly one slot of its class's semaphore and decrements the worker count by
exactly one — on every exit path. -/
theorem C6_one_shot_workers {p n : Nat} {s : DPState}
    (h : DReach (DPState.mkInit p n) s) :
    (∀ w : Nat, List.count w (s.execBy.map Prod.fst) ≤ 1)
      ∧ (∀ s', PWorkerStep s s' →
          s'.normalCh = s.normalCh ∧ s'.normalSem = s.normalSem
            ∧ (Multiset.card s'.pWaiting + Multiset.card s'.pExec + 1
                  = Multiset.card s.pWaiting + Multiset.card s.pExec →
                s'.prioritySem + 1 = s.prioritySem
                  ∧ s'.workerCount + 1 = s.workerCount))
      ∧ (∀ s', NWorkerStep s s' →
          s'.priorityCh = s.priorityCh ∧ s'.prioritySem = s.prioritySem
            ∧ (Multiset.card s'.nWaiting + Multiset.card s'.nExec + 1
                  = Multiset.card s.nWaiting + Multiset.card s.nExec →
                s'.normalSem + 1 = s.normalSem
                  ∧ s'.workerCount + 1 = s.workerCount)) := by
  have hi := DReach_inv h (inv_mkInit p n)
  have hpc := hi.pcount
  have hnc := hi.ncount
  have hwc := hi.wcount
  refine ⟨?_, ?_, ?_⟩
  · intro w
    have hnd := hi.widsNodup
    rw [widMS] at hnd
    have h1 := (Multiset.nodup_add.mp hnd).2.1
    rw [Multiset.coe_nodup] at h1
    exact List.nodup_iff_count_le_one.mp h1 w
  · intro s' hw
    cases hw with
    | takeClose wid h1 h2 =>
        have hpos : 0 < Multiset.card s.pWaiting :=
          Multiset.card_pos_iff_exists_mem.mpr ⟨wid, h1⟩
        refine ⟨rfl, rfl, fun _ => ?_⟩
        show s.prioritySem - 1 + 1 = s.prioritySem
          ∧ s.workerCount - 1 + 1 = s.workerCount
        omega
    | chClosed wid h1 h2 h3 =>
        have hpos : 0 < Multiset.card s.pWaiting :=
          Multiset.card_pos_iff_exists_mem.mpr ⟨wid, h1⟩
        refine ⟨rfl, rfl, fun _ => ?_⟩
        show s.prioritySem - 1 + 1 = s.prioritySem
          ∧ s.workerCount - 1 + 1 = s.workerCount
        omega
    | takeTask wid tid rest h1 h2 =>
        obtain ⟨e, he⟩ : ∃ e, s.pWaiting = Multiset.cons wid e :=
          ⟨_, (Multiset.cons_erase h1).symm⟩
        have herase : s.pWaiting.erase wid = e := by
          rw [he, Multiset.erase_cons_head]
        refine ⟨rfl, rfl, fun hcon => ?_⟩
        have hcon' : Multiset.card (s.pWaiting.erase wid)
            + Multiset.card (Multiset.cons (wid, tid) s.pExec) + 1
            = Multiset.card s.pWaiting + Multiset.card s.pExec := hcon
        rw [herase, he, Multiset.card_cons, Multiset.card_cons] at hcon'
        exact absurd hcon' (by omega)
    | finish wid tid h1 =>
        have hpos : 0 < Multiset.card s.pExec :=
          Multiset.card_pos_iff_exists_mem.mpr ⟨_, h1⟩
        refine ⟨rfl, rfl, fun _ => ?_⟩
        show s.prioritySem - 1 + 1 = s.prioritySem
          ∧ s.workerCount - 1 + 1 = s.workerCount
        omega
  · intro s' hw
    cases hw with
    | takeClose wid h1 h2 =>
        have hpos : 0 < Multiset.card s.nWaiting :=
          Multiset.card_pos_iff_exists_mem.mpr ⟨wid, h1⟩
        refine ⟨rfl, rfl, fun _ => ?_⟩
        show s.normalSem - 1 + 1 = s.normalSem
          ∧ s.workerCount - 1 + 1 = s.workerCount
        omega
    | chClosed wid h1 h2 h3 =>
        have hpos : 0 < Multiset.card s.nWaiting :=
          Multiset.card_pos_iff_exists_mem.mpr ⟨wid, h1⟩
        refine ⟨rfl, rfl, fun _ => ?_⟩
        show s.normalSem - 1 + 1 = s.normalSem
          ∧ s.workerCount - 1 + 1 = s.workerCount
        omega
    | takeTask wid tid rest h1 h2 =>
        obtain ⟨e, he⟩ : ∃ e, s.nWaiting = Multiset.cons wid e :=
          ⟨_, (Multiset.cons_erase h1).symm⟩
        have herase : s.nWaiting.erase wid = e := by
          rw [he, Multiset.erase_cons_head]
        refine ⟨rfl, rfl, fun hcon => ?_⟩
        have hcon' : Multiset.card (s.nWaiting.erase wid)
            + Multiset.card (Multiset.cons (wid, tid) s.nExec) + 1
            = Multiset.card s.nWaiting + Multiset.card s.nExec := hcon
        rw [herase, he, Multiset.card_cons, Multiset.card_cons] at hcon'
        exact absurd hcon' (by omega)
    | finish wid tid h1 =>
        have hpos : 0 < Multiset.card s.nExec :=
          Multiset.card_pos_iff_exists_mem.mpr ⟨_, h1⟩
        refine ⟨rfl, rfl, fun _ => ?_⟩
        show s.normalSem - 1 + 1 = s.normalSem
          ∧ s.workerCount - 1 + 1 = s.workerCount
        omega

theorem C6_one_shot_workers_witness :
    List.count 0 (dq5.execBy.map Prod.fst) ≤ 1 :=
  (C6_one_shot_workers reachq5).1 0

/-- C8: worker materialization for either class: when the pool is already
stopping, `tryLaunch` abandons silently — the resulting state differs only in
the pending-call counter, so no semaphore slot is acquired and no worker is
spawned; otherwise it acquires exactly one slot of the scheduled class's
semaphore, stays within that class's ceiling, and spawns one fresh worker of
that class. -/
theorem C8_materialization {s s' : DPState} :
    (PLaunch s s' → s.isStopped = true →
        s' = { s with pPending := s.pPending - 1 })
      ∧ (PLaunch s s' → s.isStopped = false →
          s'.prioritySem = s.prioritySem + 1
            ∧ s'.prioritySem ≤ s.maxPriorityWorkers
            ∧ s'.pWaiting = Multiset.cons s.nextWid s.pWaiting
            ∧ s'.workerCount = s.workerCount + 1)
      ∧ (NLaunch s s' → s.isStopped = true →
          s' = { s with nPending := s.nPending - 1 })
      ∧ (NLaunch s s' → s.isStopped = false →
          s'.normalSem = s.normalSem + 1
            ∧ s'.normalSem ≤ s.maxNormalWorkers
            ∧ s'.nWaiting = Multiset.cons s.nextWid s.nWaiting
            ∧ s'.workerCount = s.workerCount + 1) := by
  refine ⟨?_, ?_, ?_, ?_⟩
  · intro h hstop
    cases h with
    | stopped h1 h2 => rfl
    | go h1 h2 h3 => simp [hstop] at h2
  · intro h hrun
    cases h with
    | stopped h1 h2 => simp [hrun] at h2
    | go h1 h2 h3 =>
        refine ⟨rfl, ?_, rfl, rfl⟩
        show s.prioritySem + 1 ≤ s.maxPriorityWorkers
        omega
  · intro h hstop
    cases h with
    | stopped h1 h2 => rfl
    | go h1 h2 h3 => simp [hstop] at h2
  · intro h hrun
    cases h with
    | stopped h1 h2 => simp [hrun] at h2
    | go h1 h2 h3 =>
        refine ⟨rfl, ?_, rfl, rfl⟩
        show s.normalSem + 1 ≤ s.maxNormalWorkers
        omega

theorem C8_materialization_witness :
    (dp2.prioritySem = dp1.prioritySem + 1
        ∧ dp2.prioritySem ≤ dp1.maxPriorityWorkers
        ∧ dp2.pWaiting = Multiset.cons dp1.nextWid dp1.pWaiting
        ∧ dp2.workerCount = dp1.workerCount + 1)
      ∧ dp3q = { dp3p with pPending := dp3p.pPending - 1 } :=
  ⟨(@C8_materialization dp1 dp2).2.1
      (PLaunch.go dp1 (by decide) rfl (by decide)) rfl,
   (@C8_materialization dp3p dp3q).1
      (PLaunch.stopped dp3p (by decide) rfl) rfl⟩

/-- C9 counterexample: at the reachable state `dp3` of a (1,1) dynamic pool
the shutdown signal is ready (`closeCh` closed) and an urgent task is
buffered, yet the worker may take the task branch of its select and execute
the task (Go's select tie-break is uniformly random, not
shutdown-preferring): the steps `dp3 → dq4 → dq5` execute task 0 although
the shutdown signal was already ready at `dp3`. -/
theorem C9_cex :
    DReach (DPState.mkInit 1 1) dp3
      ∧ dp3.closeChClosed = true
      ∧ dp3.priorityCh = [0]
      ∧ DStep dp3 dq4
      ∧ DStep dq4 dq5
      ∧ dq5.executed = [0] :=
  ⟨reach3, rfl, rfl, dstep3q4, dstepq45, rfl⟩

/-- C9 (amended): when a worker's select finds both the shutdown signal and
a task of its class ready, the choice is non-deterministic (Go's select
picks uniformly among ready cases): both the exit-without-executing step and
the dequeue-the-task step are enabled, for either class; strict preference
for the shutdown signal is not guaranteed. -/
theorem C9_amended {s : DPState} {wid tid wid2 tid2 : Nat}
    {rest rest2 : List Nat}
    (h1 : wid ∈ s.pWaiting) (h2 : s.closeChClosed = true)
    (h3 : s.priorityCh = tid :: rest)
    (h4 : wid2 ∈ s.nWaiting) (h5 : s.normalCh = tid2 :: rest2) :
    PWorkerStep s { s with
        pWaiting := s.pWaiting.erase wid
        prioritySem := s.prioritySem - 1
        workerCount := s.workerCount - 1 }
      ∧ PWorkerStep s { s with
          pWaiting := s.pWaiting.erase wid
          pExec := Multiset.cons (wid, tid) s.pExec
          priorityCh := rest }
      ∧ NWorkerStep s { s with
          nWaiting := s.nWaiting.erase wid2
          normalSem := s.normalSem - 1
          workerCount := s.workerCount - 1 }
      ∧ NWorkerStep s { s with
          nWaiting := s.nWaiting.erase wid2
          nExec := Multiset.cons (wid2, tid2) s.nExec
          normalCh := rest2 } :=
  ⟨PWorkerStep.takeClose s wid h1 h2,
   PWorkerStep.takeTask s wid tid rest h1 h3,
   NWorkerStep.takeClose s wid2 h4 h2,
   NWorkerStep.takeTask s wid2 tid2 rest2 h4 h5⟩

theorem C9_amended_witness :
    PWorkerStep dboth { dboth with
        pWaiting := dboth.pWaiting.erase 0
        prioritySem := dboth.prioritySem - 1
        workerCount := dboth.workerCount - 1 }
      ∧ PWorkerStep dboth { dboth with
          pWaiting := dboth.pWaiting.erase 0
          pExec := Multiset.cons (0, 5) dboth.pExec
          priorityCh := [] }
      ∧ NWorkerStep dboth { dboth with
          nWaiting := dboth.nWaiting.erase 1
          normalSem := dboth.normalSem - 1
          workerCount := dboth.workerCount - 1 }
      ∧ NWorkerStep dboth { dboth with
          nWaiting := dboth.nWaiting.erase 1
          nExec := Multiset.cons (1, 6) dboth.nExec
          normalCh := [] } :=
  @C9_amended dboth 0 5 1 6 [] [] (by decide) rfl rfl (by decide) rfl

theorem stopOnce_idem (s : DPState) :
    DPState.stopOnce (DPState.stopOnce s) = DPState.stopOnce s := by
  unfold DPState.stopOnce
  by_cases h : s.stopStarted <;> simp [h]

/-- C4 counterexample: for the Fixed pool, `Stop()` is not idempotent: a
second call faults.  The pool built by `NewStaticThreadPool 4` stops
successfully once, after which the `close` channel is closed; the second
`Stop()` call's first action `t.close <- 1` is a send on a closed channel —
a runtime panic — refuting the claim that for both pool variants repeated
`Stop()` calls have the same effect as one call and never fault. -/
theorem C4_cex :
    NewStaticThreadPool 4 = some sp4
      ∧ SPState.stop sp4 = Except.ok sp4s
      ∧ SPState.stop sp4s = Except.error "send on closed channel" :=
  ⟨rfl, rfl, rfl⟩

/-- C4 (amended): for the Elastic pool, `Stop()` is idempotent — the
`sync.Once` guard makes every call after the first a no-op, so N calls
(N ≥ 1) equal one call; for the Fixed pool the first completed `Stop()`
leaves the close channel closed and any further `Stop()` call faults with a
send on that closed channel. -/
theorem C4_amended :
    (∀ (k : Nat) (s : DPState),
        Nat.iterate DPState.stopOnce (k + 1) s = DPState.stopOnce s)
      ∧ (∀ t : SPState, t.closeClosed = true →
          SPState.stop t = Except.error "send on closed channel")
      ∧ (∀ t u : SPState, SPState.stop t = Except.ok u →
          u.closeClosed = true) := by
  refine ⟨?_, ?_, ?_⟩
  · intro k s
    induction k generalizing s with
    | zero => rfl
    | succ m ih =>
        rw [Function.iterate_succ_apply, ih, stopOnce_idem]
  · intro t ht
    unfold SPState.stop
    rw [if_pos ht]
  · intro t u hok
    unfold SPState.stop at hok
    by_cases hc : t.closeClosed
    · rw [if_pos hc] at hok
      exact Except.noConfusion hok
    · rw [if_neg hc] at hok
      simp only [Except.ok.injEq] at hok
      rw [← hok]

theorem C4_amended_witness :
    Nat.iterate DPState.stopOnce 3 dp0 = DPState.stopOnce dp0
      ∧ SPState.stop sp4s = Except.error "send on closed channel" :=
  ⟨C4_amended.1 2 dp0, C4_amended.2.1 sp4s rfl⟩

/-- C5: construction with a zero concurrency parameter yields no usable pool
(`nil`): `NewStaticThreadPool 0` and `NewDynamicThreadPool p n` with `p = 0`
or `n = 0` return `none`; with strictly positive parameters both
constructors return a pool. -/
theorem C5_zero_ceiling (p n c : Nat) :
    NewStaticThreadPool 0 = none
      ∧ (p = 0 ∨ n = 0 → NewDynamicThreadPool p n = none)
      ∧ (0 < c → (NewStaticThreadPool c).isSome = true)
      ∧ (0 < p → 0 < n → (NewDynamicThreadPool p n).isSome = true) := by
  refine ⟨rfl, ?_, ?_, ?_⟩
  · rintro (hp | hn)
    · simp [NewDynamicThreadPool, hp]
    · by_cases hp : p = 0 <;> simp [NewDynamicThreadPool, hp, hn]
  · intro hc
    have hne : c ≠ 0 := by omega
    simp [NewStaticThreadPool, hne]
  · intro hp hn
    have hp' : p ≠ 0 := by omega
    have hn' : n ≠ 0 := by omega
    simp [NewDynamicThreadPool, hp', hn']

theorem C5_zero_ceiling_witness :
    NewDynamicThreadPool 0 5 = none
      ∧ NewDynamicThreadPool 5 0 = none
      ∧ (NewStaticThreadPool 3).isSome = true
      ∧ (NewDynamicThreadPool 2 7).isSome = true :=
  ⟨(C5_zero_ceiling 0 5 1).2.1 (Or.inl rfl),
   (C5_zero_ceiling 5 0 1).2.1 (Or.inr rfl),
   (C5_zero_ceiling 0 0 3).2.2.1 (by decide),
   (C5_zero_ceiling 2 7 1).2.2.2 (by decide) (by decide)⟩

theorem range_map_lt_all {n k : Nat} (h : n ≤ k) :
    (List.range n).map (fun i => decide (i < k)) = List.replicate n true := by
  induction n with
  | zero => rfl
  | succ m ih =>
      rw [List.range_succ, List.map_append, ih (by omega)]
      have hm : m < k := by omega
      simp [List.replicate_succ', decide_eq_true hm]

theorem range_map_lt_split {n k : Nat} (h : k ≤ n) :
    (List.range n).map (fun i => decide (i < k))
      = List.replicate k true ++ List.replicate (n - k) false := by
  induction n with
  | zero =>
      have hk : k = 0 := by omega
      subst hk
      rfl
  | succ m ih =>
      rcases Nat.lt_or_ge m k with hmk | hmk
      · have hk : k = m + 1 := by omega
        subst hk
        rw [range_map_lt_all (Nat.le_refl (m + 1))]
        simp
      · rw [List.range_succ, List.map_append, ih hmk]
        have hm : ¬ m < k := by omega
        have h2 : m + 1 - k = (m - k) + 1 := by omega
        rw [h2, List.replicate_succ', List.append_assoc]
        simp [decide_eq_false hm]

/-- C7 counterexample: `Start` computes `highPriority` in `uint32`
arithmetic, so at `workerCount = 2^31` the product `2^31 * 10` wraps to `0`
and `highPriorityWorkerCount = 0` — not `floor(workerCount * 10%) =
214748364` as the claim states — and no worker at all runs in urgent-only
mode. -/
theorem C7_cex :
    highPriorityCount 2147483648 = 0
      ∧ 2147483648 * 10 / 100 = 214748364
      ∧ highPriorityCount 2147483648 ≠ 2147483648 * 10 / 100
      ∧ staticStart 2147483648 = List.replicate 2147483648 false := by
  have h0 : highPriorityCount 2147483648 = 0 := by decide
  refine ⟨h0, by decide, by decide, ?_⟩
  unfold staticStart
  rw [h0]
  rw [@range_map_lt_split 2147483648 0 (Nat.zero_le _)]
  rw [Nat.sub_zero, List.replicate_zero, List.nil_append]

/-- C7 (amended): for every workerCount with 1 ≤ workerCount and
`workerCount * 10 < 2^32` (no `uint32` overflow — all workerCount up to
429496729), the Fixed pool's `Start()` computes `highPriorityWorkerCount =
floor(workerCount * 10%)` and spawns exactly `workerCount` worker loops
whose mode flags are `highPriorityWorkerCount` urgent-only loops followed by
the rest in mixed mode; an urgent-only loop step never consumes from the
normal queue (only a mixed loop — `mode = false` — can change `normalCh`).
For larger workerCount the count is `(workerCount * 10 mod 2^32) / 100`
instead. -/
theorem C7_fixed_start (c : Nat) (hc : 1 ≤ c) (hb : c * 10 < 2 ^ 32) :
    highPriorityCount c = c * 10 / 100
      ∧ (staticStart c).length = c
      ∧ staticStart c = List.replicate (c * 10 / 100) true
          ++ List.replicate (c - c * 10 / 100) false
      ∧ (∀ s : SPState, (SPState.start s).modes = staticStart s.worker
            ∧ (SPState.start s).liveWorkers = s.worker)
      ∧ (∀ (m : Bool) (s s' : SPState), SDoStep m s s' →
            s'.normalCh ≠ s.normalCh → m = false) := by
  have hhp : highPriorityCount c = c * 10 / 100 := by
    unfold highPriorityCount
    rw [Nat.mod_eq_of_lt hb]
  have hk : c * 10 / 100 ≤ c := by
    have h1 : c * 10 ≤ c * 100 := by omega
    have h2 : c * 10 / 100 ≤ c * 100 / 100 := Nat.div_le_div_right h1
    have h3 : c * 100 / 100 = c := Nat.mul_div_cancel c (by omega)
    omega
  refine ⟨hhp, ?_, ?_, fun s => ⟨rfl, rfl⟩, ?_⟩
  · simp [staticStart]
  · unfold staticStart
    rw [hhp]
    exact range_map_lt_split hk
  · intro m s s' hstep hne
    cases hstep with
    | prio mode tid rest h => exact absurd rfl hne
    | norm tid rest h => rfl
    | closeSig mode h => exact absurd rfl hne
    | closeDone mode h => exact absurd rfl hne

theorem C7_fixed_start_witness :
    highPriorityCount 10 = 1
      ∧ (staticStart 10).length = 10
      ∧ staticStart 10 = List.replicate 1 true ++ List.replicate 9 false :=
  ⟨(C7_fixed_start 10 (by decide) (by decide)).1,
   (C7_fixed_start 10 (by decide) (by decide)).2.1,
   (C7_fixed_start 10 (by decide) (by decide)).2.2.1⟩

/-- C10: after a completed `Stop()` of the Fixed pool both task queues are
closed, so every subsequent `Schedule` call of either class performs a send
on a closed channel and faults (runtime panic) instead of blocking or
silently dropping the task. -/
theorem C10_post_stop_fault {s s' : SPState}
    (h : SPState.stop s = Except.ok s') (u : Bool) (tid : Nat) :
    SPState.schedule s' u tid = SendRes.fault := by
  unfold SPState.stop at h
  by_cases hc : s.closeClosed
  · rw [if_pos hc] at h
    exact Except.noConfusion h
  · rw [if_neg hc] at h
    simp only [Except.ok.injEq] at h
    rw [← h]
    cases u <;> simp [SPState.schedule]

theorem C10_post_stop_fault_witness :
    SPState.schedule sp4s true 7 = SendRes.fault
      ∧ SPState.schedule sp4s false 8 = SendRes.fault :=
  ⟨@C10_post_stop_fault sp4 sp4s rfl true 7,
   @C10_post_stop_fault sp4 sp4s rfl false 8⟩

end GoCore
